import Mathlib

/-!
Verification of the sharepointIndexer content ingestion pipeline.

Shallow embedding of the JavaScript sources:
* `src/functions/utils/fileProcessors.js` — `chunkContent`, `extractTextContent`,
  `processChunks`, `processSharePointFile`
* `src/functions/services/openAiService.js` — `generateEmbedding`,
  `generateEmbeddingBatch`, and the bundled `documentModel.js`
  (`createSearchDocument`, `validateDocument`)
* `src/functions/services/searchService.js` — `deleteExistingDocuments`,
  `uploadDocuments`
* `src/unnamed/part_004` — `parseSharePointUrl`

JavaScript strings are modelled as `List Char` (one entry per UTF-16 unit in
the BMP range used here); machine-level services (Azure OpenAI, Cognitive
Search network calls, `Date`, `decodeURIComponent`) are modelled as explicit
oracle parameters, mirroring the spec's "external collaborators" (§6).
-/

set_option autoImplicit false

namespace SPIndexer

/-- Errors thrown by the JavaScript code are plain `Error` objects; we model
them by their message string. -/
abbrev JsError := String

/-! ### JavaScript values

A small model of the JavaScript values that flow through the document
assembler and validator: enough to express truthiness, `Array.isArray`,
`typeof x === 'number'` and template-literal string coercion. -/

/-- JavaScript runtime values relevant to the document model. -/
inductive JSValue where
  | undefined
  | null
  | bool (b : Bool)
  | num (n : Int)
  | nan
  | str (s : String)
  | arr (xs : List JSValue)
deriving Repr

/-- JavaScript truthiness: `undefined`, `null`, `false`, `0`, `NaN` and `""`
are falsy; every other value (including any array) is truthy. -/
def truthy : JSValue → Bool
  | .undefined => false
  | .null => false
  | .bool b => b
  | .num n => n != 0
  | .nan => false
  | .str s => s ≠ ""
  | .arr _ => true

/-- `Array.isArray`. -/
def isArrayJS : JSValue → Bool
  | .arr _ => true
  | _ => false

/-- `typeof v === 'number'` (NaN is a number). -/
def isNumberJS : JSValue → Bool
  | .num _ => true
  | .nan => true
  | _ => false

/-- `String(v)` / template-literal coercion of a value. -/
def jsToString : JSValue → String
  | .undefined => "undefined"
  | .null => "null"
  | .bool b => if b then "true" else "false"
  | .num n => toString n
  | .nan => "NaN"
  | .str s => s
  | .arr xs => String.intercalate "," (xs.map fun v => jsToStringElem v)
where
  /-- `Array.prototype.toString` maps `null`/`undefined` elements to `""`. -/
  jsToStringElem : JSValue → String
    | .undefined => ""
    | .null => ""
    | .bool b => if b then "true" else "false"
    | .num n => toString n
    | .nan => "NaN"
    | .str s => s
    | .arr _ => ""

/-- Parse the leading optional-sign digit run of a string, as `parseInt`
does after `ToString` coercion; anything else yields `NaN`. -/
def parseIntChars : List Char → JSValue
  | [] => .nan
  | '-' :: rest => negOf (digitsOf rest)
  | '+' :: rest => posOf (digitsOf rest)
  | l => posOf (digitsOf l)
where
  digitsOf (l : List Char) : List Char := l.takeWhile Char.isDigit
  natOf (ds : List Char) : Nat := ds.foldl (fun acc c => acc * 10 + (c.toNat - '0'.toNat)) 0
  posOf (ds : List Char) : JSValue := if ds.isEmpty then .nan else .num (natOf ds)
  negOf (ds : List Char) : JSValue := if ds.isEmpty then .nan else .num (-(natOf ds : Int))

/-- `parseInt(v)`: coerce to string, skip leading whitespace, parse the
leading integer literal. -/
def parseIntJS (v : JSValue) : JSValue :=
  parseIntChars ((jsToString v).toList.dropWhile (fun c => c == ' ' || c == '\t' || c == '\n' || c == '\r'))

/-! ### `path.extname` and `toLowerCase`

`documentModel.js` computes `filetype` with `path.extname(name).toLowerCase()`
and `fileProcessors.js` derives the dispatch extension the same way. -/

/-- Characters of the last path segment (after the final `/`). -/
def lastSegment (s : List Char) : List Char :=
  ((s.reverse).takeWhile (fun c => c ≠ '/')).reverse

/-- `path.extname`: the suffix of the basename from its last `.`; empty when
the basename has no dot or only a leading dot. -/
def extnameJS (s : List Char) : List Char :=
  let b := lastSegment s
  let afterDotRev := (b.reverse).takeWhile (fun c => c ≠ '.')
  if afterDotRev.length + 1 < b.length ∨ (afterDotRev.length + 1 = b.length ∧ b.head? ≠ some '.')
  then '.' :: afterDotRev.reverse
  else []

/-- `toLowerCase` (ASCII range, which is all the sources use). -/
def toLowerJS (s : List Char) : List Char := s.map Char.toLower

/-! ### Document model (`documentModel.js`, first bundled version)

`createSearchDocument` and `validateDocument` as they appear at
`openAiService.js` lines 311–391 of the packed sources. -/

/-- SharePoint file metadata consumed by the pipeline: `id`, `name`,
`webUrl`, `lastModifiedDateTime`.  An absent `fileInfo` argument is modelled
as `none` (objects are always truthy in JavaScript). -/
structure FileInfo where
  id : JSValue
  name : String
  webUrl : JSValue
  lastModifiedDateTime : JSValue
deriving Repr

/-- The named parameters of `createSearchDocument`. -/
structure CreateParams where
  fileId : JSValue
  chunkIndex : JSValue
  fileInfo : Option FileInfo
  content : JSValue
  embedding : JSValue
  totalChunks : JSValue

/-- The search document record produced by `createSearchDocument`.  `docId`
is always a string (a template literal), the remaining fields carry the
JavaScript values stored in them. -/
structure Doc where
  docId : String
  docTitle : JSValue
  filename : JSValue
  filetype : JSValue
  fileUrl : JSValue
  lastmodified : JSValue
  description : JSValue
  chunkindex : JSValue
  totalChuncks : JSValue
  descriptionVector : JSValue
deriving Repr

/-- `createSearchDocument`.  `dateISO` models
`new Date(v).toISOString()`, which throws on an invalid date. -/
def createSearchDocument (dateISO : JSValue → Except JsError String)
    (p : CreateParams) : Except JsError Doc :=
  if !truthy p.fileId || p.fileInfo.isNone || !truthy p.content || !truthy p.embedding then
    .error "Missing required parameters for document creation"
  else
    match p.fileInfo with
    | none => .error "Missing required parameters for document creation"
    | some fi =>
      match dateISO fi.lastModifiedDateTime with
      | .error e => .error e
      | .ok lastModified => .ok {
        docId := jsToString p.fileId ++ "-" ++ jsToString p.chunkIndex
        docTitle := .str fi.name
        filename := .str fi.name
        filetype := .str (String.mk (toLowerJS (extnameJS fi.name.toList)))
        fileUrl := fi.webUrl
        lastmodified := .str lastModified
        description := p.content
        chunkindex := parseIntJS p.chunkIndex
        totalChuncks := parseIntJS p.totalChunks
        descriptionVector := p.embedding }

/-- The required-field list of `validateDocument`, paired with the value
stored in the document for each field name. -/
def requiredFieldValues (d : Doc) : List (String × JSValue) :=
  [("docId", .str d.docId),
   ("docTitle", d.docTitle),
   ("description", d.description),
   ("filename", d.filename),
   ("filetype", d.filetype),
   ("lastmodified", d.lastmodified),
   ("chunkindex", d.chunkindex),
   ("totalChuncks", d.totalChuncks),
   ("descriptionVector", d.descriptionVector),
   ("fileUrl", d.fileUrl)]

/-- The names of the required fields whose stored value is falsy. -/
def missingFields (d : Doc) : List String :=
  ((requiredFieldValues d).filter (fun p => ¬ truthy p.2)).map (·.1)

/-- The error message for missing required fields. -/
def missingFieldsMsg (names : List String) : String :=
  "Invalid document: missing required fields: " ++ String.intercalate ", " names

/-- `validateDocument`.  `dateOk` models
`!isNaN(new Date(v).getTime())`. -/
def validateDocument (dateOk : JSValue → Bool) (d : Doc) : Except JsError Bool :=
  if missingFields d ≠ [] then
    .error (missingFieldsMsg (missingFields d))
  else if ¬ isArrayJS d.descriptionVector then
    .error "Invalid document: descriptionVector must be an array"
  else if ¬ isNumberJS d.chunkindex then
    .error "Invalid document: chunkindex must be a number"
  else if ¬ isNumberJS d.totalChuncks then
    .error "Invalid document: totalChuncks must be a number"
  else if ¬ dateOk d.lastmodified then
    .error "Invalid document: lastmodified must be a valid date"
  else
    .ok true

theorem missingFieldsMsg_starts (names : List String) :
    "Invalid document".toList <+: (missingFieldsMsg names).toList := by
  have h1 : "Invalid document".toList <+:
      ("Invalid document: missing required fields: ").toList := by decide
  have h2 : (missingFieldsMsg names).toList =
      ("Invalid document: missing required fields: ").toList ++
        (String.intercalate ", " names).toList := by
    simp [missingFieldsMsg, String.toList, String.data_append]
  rw [h2]
  exact h1.trans (List.prefix_append _ _)

/-- Claim C6: `createSearchDocument` fails with the missing-parameter error
whenever `fileId`, `fileInfo`, `content` or `embedding` is absent (falsy),
and `validateDocument` rejects with a validation error every document whose
`descriptionVector` is not an array. -/
theorem createSearchDocument_validateDocument_require :
    (∀ (dateISO : JSValue → Except JsError String) (p : CreateParams),
      (truthy p.fileId = false ∨ p.fileInfo = none ∨ truthy p.content = false ∨
          truthy p.embedding = false) →
      createSearchDocument dateISO p =
        .error "Missing required parameters for document creation") ∧
    (∀ (dateOk : JSValue → Bool) (d : Doc),
      isArrayJS d.descriptionVector = false →
      ∃ msg, validateDocument dateOk d = .error msg ∧
        "Invalid document".toList <+: msg.toList) := by
  constructor
  · intro dateISO p h
    have hc : (!truthy p.fileId || p.fileInfo.isNone || !truthy p.content ||
        !truthy p.embedding) = true := by
      rcases h with h | h | h | h <;> simp [h]
    simp [createSearchDocument, hc]
  · intro dateOk d h
    by_cases hm : missingFields d = []
    · refine ⟨"Invalid document: descriptionVector must be an array", ?_, by decide⟩
      simp [validateDocument, hm, h]
    · exact ⟨missingFieldsMsg (missingFields d),
        by simp [validateDocument, hm], missingFieldsMsg_starts _⟩

/-- Witness for C6: a call with absent `content` fails with the
missing-parameter error; a document whose `descriptionVector` is the number
`5` fails validation with an `Invalid document` error. -/
theorem createSearchDocument_validateDocument_require_witness :
    createSearchDocument (fun _ => .ok "2024-01-01T00:00:00.000Z")
      { fileId := .str "f1", chunkIndex := .num 1,
        fileInfo := some ⟨.str "id", "a.txt", .str "u", .str "2024-01-01"⟩,
        content := .undefined, embedding := .arr [.num 1],
        totalChunks := .num 1 } =
      .error "Missing required parameters for document creation" ∧
    ∃ msg, validateDocument (fun _ => true)
      { docId := "f1-1", docTitle := .str "a.txt", filename := .str "a.txt",
        filetype := .str ".txt", fileUrl := .str "u",
        lastmodified := .str "2024-01-01", description := .str "hello",
        chunkindex := .num 1, totalChuncks := .num 1,
        descriptionVector := .num 5 } = .error msg ∧
      "Invalid document".toList <+: msg.toList := by
  refine ⟨?_, ?_⟩
  · exact createSearchDocument_validateDocument_require.1 _ _ (Or.inr (Or.inr (Or.inl rfl)))
  · exact createSearchDocument_validateDocument_require.2 _ _ rfl

/-- Claim C10: `validateDocument` treats a falsy required field as missing:
a falsy `chunkindex` (such as the number `0`) or a falsy `description`
(such as the empty string) makes validation fail with the
missing-required-fields error naming that field, even though the field is
present on the document. -/
theorem validateDocument_falsy_required_missing (dateOk : JSValue → Bool) (d : Doc)
    (h : truthy d.chunkindex = false ∨ truthy d.description = false) :
    validateDocument dateOk d = .error (missingFieldsMsg (missingFields d)) ∧
    missingFields d ≠ [] ∧
    (truthy d.chunkindex = false → "chunkindex" ∈ missingFields d) ∧
    (truthy d.description = false → "description" ∈ missingFields d) := by
  have hmemC : truthy d.chunkindex = false → "chunkindex" ∈ missingFields d := by
    intro hc
    simp only [missingFields, requiredFieldValues, List.mem_map]
    exact ⟨("chunkindex", d.chunkindex), by simp [List.mem_filter, hc], rfl⟩
  have hmemD : truthy d.description = false → "description" ∈ missingFields d := by
    intro hc
    simp only [missingFields, requiredFieldValues, List.mem_map]
    exact ⟨("description", d.description), by simp [List.mem_filter, hc], rfl⟩
  have hne : missingFields d ≠ [] := by
    intro hnil
    rcases h with h | h
    · have hmem := hmemC h
      simp [hnil] at hmem
    · have hmem := hmemD h
      simp [hnil] at hmem
  exact ⟨by simp [validateDocument, hne], hne, hmemC, hmemD⟩

/-- Witness for C10: a document whose `chunkindex` is the number `0` (and
every other required field truthy) fails validation with the
missing-required-fields error naming `chunkindex`. -/
theorem validateDocument_falsy_required_missing_witness :
    validateDocument (fun _ => true)
      { docId := "f1-1", docTitle := .str "a.txt", filename := .str "a.txt",
        filetype := .str ".txt", fileUrl := .str "u",
        lastmodified := .str "2024-01-01", description := .str "hello",
        chunkindex := .num 0, totalChuncks := .num 1,
        descriptionVector := .arr [.num 1] } =
      .error "Invalid document: missing required fields: chunkindex" := by
  have h := validateDocument_falsy_required_missing (fun _ => true)
    { docId := "f1-1", docTitle := .str "a.txt", filename := .str "a.txt",
      filetype := .str ".txt", fileUrl := .str "u",
      lastmodified := .str "2024-01-01", description := .str "hello",
      chunkindex := .num 0, totalChuncks := .num 1,
      descriptionVector := .arr [.num 1] } (Or.inl rfl)
  exact h.1

/-! ### Embedder (`openAiService.js`)

`generateEmbedding(context, text, retry)` makes one attempt (client lookup,
configuration lookup and the embedding call, any of whose failures — and a
missing result — reach the `catch` block); while `retry < MAX_RETRIES` it
sleeps `BASE_DELAY * 2^retry` ms and recurses with `retry + 1`; otherwise it
re-throws the attempt's error object unchanged.  The outcome of attempt
number `n` (0-based) is an oracle `attempt n`; the model also returns the
list of attempt numbers made and the list of delays waited. -/

/-- `MAX_RETRIES` (openAiService.js). -/
def MAX_RETRIES : Nat := 3

/-- `BASE_DELAY` in milliseconds (openAiService.js). -/
def BASE_DELAY : Nat := 1000

/-- Fuel-indexed body of `generateEmbedding`; with fuel
`MAX_RETRIES - retry` the fuel never runs out. -/
def genEmbF {E V : Type} (attempt : Nat → Except E V) : Nat → Nat → List Nat × List Nat × Except E V
  | fuel, retry =>
    match attempt retry with
    | .ok v => ([retry], [], .ok v)
    | .error e =>
      if retry < MAX_RETRIES then
        match fuel with
        | 0 => ([retry], [], .error e)
        | fuel' + 1 =>
          let d := BASE_DELAY * 2 ^ retry
          let r := genEmbF attempt fuel' (retry + 1)
          (retry :: r.1, d :: r.2.1, r.2.2)
      else ([retry], [], .error e)

/-- `generateEmbedding` with the attempt-outcome oracle: returns the list of
attempt numbers made, the list of backoff delays waited, and the final
result. -/
def generateEmbedding {E V : Type} (attempt : Nat → Except E V) (retry : Nat) :
    List Nat × List Nat × Except E V :=
  genEmbF attempt (MAX_RETRIES - retry) retry

/-- Claim C3: `generateEmbedding` makes at most 4 attempts, waits
1000 ms, 2000 ms, 4000 ms before attempts 2, 3, 4 respectively, and when the
final attempt fails it propagates that attempt's error unchanged. -/
theorem generateEmbedding_retry_policy {E V : Type} (attempt : Nat → Except E V) :
    (generateEmbedding attempt 0).1.length ≤ 4 ∧
    (generateEmbedding attempt 0).1 = List.range (generateEmbedding attempt 0).1.length ∧
    (generateEmbedding attempt 0).2.1 =
      (List.range ((generateEmbedding attempt 0).1.length - 1)).map
        (fun i => BASE_DELAY * 2 ^ i) ∧
    (∀ e, (generateEmbedding attempt 0).2.2 = .error e →
      (generateEmbedding attempt 0).1.length = 4 ∧ attempt 3 = .error e) ∧
    (∀ v, (generateEmbedding attempt 0).2.2 = .ok v →
      attempt ((generateEmbedding attempt 0).1.length - 1) = .ok v) := by
  rcases h0 : attempt 0 with e0 | v0
  · rcases h1 : attempt 1 with e1 | v1
    · rcases h2 : attempt 2 with e2 | v2
      · rcases h3 : attempt 3 with e3 | v3
        · simp [generateEmbedding, genEmbF, MAX_RETRIES, BASE_DELAY, h0, h1, h2, h3,
            List.range_succ]
        · simp [generateEmbedding, genEmbF, MAX_RETRIES, BASE_DELAY, h0, h1, h2, h3,
            List.range_succ]
      · simp [generateEmbedding, genEmbF, MAX_RETRIES, BASE_DELAY, h0, h1, h2,
          List.range_succ]
    · simp [generateEmbedding, genEmbF, MAX_RETRIES, BASE_DELAY, h0, h1,
        List.range_succ]
  · simp [generateEmbedding, genEmbF, MAX_RETRIES, BASE_DELAY, h0, List.range_succ]

/-- Witness for C3: an oracle that fails on every attempt (with the attempt
number as its error) exhausts exactly attempts 0–3, waits 1000 ms, 2000 ms
and 4000 ms, and surfaces attempt 3's error unchanged. -/
theorem generateEmbedding_retry_policy_witness :
    (generateEmbedding (fun n => (Except.error n : Except Nat Unit)) 0).1 = [0, 1, 2, 3] ∧
    (generateEmbedding (fun n => (Except.error n : Except Nat Unit)) 0).2.1 =
      [1000, 2000, 4000] ∧
    (generateEmbedding (fun n => (Except.error n : Except Nat Unit)) 0).1.length = 4 ∧
    (fun n => (Except.error n : Except Nat Unit)) 3 = .error 3 := by
  have h := generateEmbedding_retry_policy (fun n => (Except.error n : Except Nat Unit))
  have hfin := (h.2.2.2.1 3 rfl).2
  exact ⟨by decide, by decide, by decide, hfin⟩

/-! ### Batch embedder (`generateEmbeddingBatch`)

The batch loop embeds the texts one at a time in input order, pushes each
embedding, and re-throws the first failure.  The model returns the list of
texts for which `generateEmbedding` was invoked, plus the result. -/

/-- The body of `generateEmbeddingBatch` over a single-text embedding
function: returns the texts attempted (in order) and the result. -/
def generateEmbeddingBatchF {α E V : Type} (embedOne : α → Except E V) :
    List α → List α × Except E (List V)
  | [] => ([], .ok [])
  | t :: ts =>
    match embedOne t with
    | .error e => ([t], .error e)
    | .ok v =>
      let r := generateEmbeddingBatchF embedOne ts
      (t :: r.1, match r.2 with
        | .ok vs => .ok (v :: vs)
        | .error e => .error e)

/-- `generateEmbeddingBatch`, calling `generateEmbedding` (with its retry
policy) for each text through the per-text attempt oracle. -/
def generateEmbeddingBatch {α E V : Type} (attempt : α → Nat → Except E V)
    (texts : List α) : List α × Except E (List V) :=
  generateEmbeddingBatchF (fun t => (generateEmbedding (attempt t) 0).2.2) texts

theorem generateEmbeddingBatchF_ok {α E V : Type} (f : α → Except E V) :
    ∀ ts : List α, (∀ t ∈ ts, ∃ v, f t = .ok v) →
    (generateEmbeddingBatchF f ts).1 = ts ∧
    ∃ vs, (generateEmbeddingBatchF f ts).2 = .ok vs ∧ vs.length = ts.length ∧
      ∀ i (hi : i < ts.length) (hv : i < vs.length),
        f (ts.get ⟨i, hi⟩) = .ok (vs.get ⟨i, hv⟩)
  | [], _ => ⟨rfl, [], rfl, rfl, fun i hi => absurd hi (by simp)⟩
  | t :: ts, h => by
    obtain ⟨v, hv⟩ := h t (by simp)
    obtain ⟨htr, vs, hvs, hlen, hidx⟩ :=
      generateEmbeddingBatchF_ok f ts (fun x hx => h x (by simp [hx]))
    refine ⟨?_, v :: vs, ?_, by simp [hlen], ?_⟩
    · simp [generateEmbeddingBatchF, hv, htr]
    · simp [generateEmbeddingBatchF, hv, hvs]
    · intro i hi hv2
      match i with
      | 0 => simpa using hv
      | j + 1 => simpa using hidx j (by simpa using hi) (by simpa using hv2)

theorem generateEmbeddingBatchF_err {α E V : Type} (f : α → Except E V) :
    ∀ (pre : List α) (t : α) (post : List α) (e : E),
    (∀ p ∈ pre, ∃ v, f p = .ok v) → f t = .error e →
    (generateEmbeddingBatchF f (pre ++ t :: post)).2 = .error e ∧
    (generateEmbeddingBatchF f (pre ++ t :: post)).1 = pre ++ [t]
  | [], t, post, e, _, hit => by simp [generateEmbeddingBatchF, hit]
  | p :: pre, t, post, e, hok, hit => by
    obtain ⟨v, hv⟩ := hok p (by simp)
    obtain ⟨h2, h1⟩ := generateEmbeddingBatchF_err f pre t post e
      (fun x hx => hok x (by simp [hx])) hit
    constructor
    · simp [generateEmbeddingBatchF, hv, h2]
    · simp [generateEmbeddingBatchF, hv, h1]

/-- Claim C7: `generateEmbeddingBatch` embeds the items one at a time in
input order, returns the embeddings in input order, and as soon as one
item's embedding fails unrecoverably the whole call fails with that item's
error, never attempting the later items and returning no partial result. -/
theorem generateEmbeddingBatch_sequential {α E V : Type} (attempt : α → Nat → Except E V)
    (texts : List α) :
    ((∀ t ∈ texts, ∃ v, (generateEmbedding (attempt t) 0).2.2 = .ok v) →
      (generateEmbeddingBatch attempt texts).1 = texts ∧
      ∃ vs, (generateEmbeddingBatch attempt texts).2 = .ok vs ∧
        vs.length = texts.length ∧
        ∀ i (hi : i < texts.length) (hv : i < vs.length),
          (generateEmbedding (attempt (texts.get ⟨i, hi⟩)) 0).2.2 =
            .ok (vs.get ⟨i, hv⟩)) ∧
    (∀ (pre : List α) (t : α) (post : List α) (e : E),
      texts = pre ++ t :: post →
      (∀ p ∈ pre, ∃ v, (generateEmbedding (attempt p) 0).2.2 = .ok v) →
      (generateEmbedding (attempt t) 0).2.2 = .error e →
      (generateEmbeddingBatch attempt texts).2 = .error e ∧
      (generateEmbeddingBatch attempt texts).1 = pre ++ [t]) := by
  constructor
  · intro h
    exact generateEmbeddingBatchF_ok _ texts h
  · intro pre t post e hsplit hok hit
    subst hsplit
    exact generateEmbeddingBatchF_err _ pre t post e hok hit

/-- Witness for C7: with item `"b"` failing every attempt and the others
succeeding, the batch `["a", "b", "c"]` attempts only `["a", "b"]` and
fails with `"boom"`. -/
theorem generateEmbeddingBatch_sequential_witness :
    (generateEmbeddingBatch
      (fun (t : String) (_ : Nat) =>
        if t = "b" then (Except.error "boom" : Except String Nat) else .ok 42)
      ["a", "b", "c"]).2 = .error "boom" ∧
    (generateEmbeddingBatch
      (fun (t : String) (_ : Nat) =>
        if t = "b" then (Except.error "boom" : Except String Nat) else .ok 42)
      ["a", "b", "c"]).1 = ["a", "b"] := by
  have h := (generateEmbeddingBatch_sequential
    (fun (t : String) (_ : Nat) =>
      if t = "b" then (Except.error "boom" : Except String Nat) else .ok 42)
    ["a", "b", "c"]).2 ["a"] "b" ["c"] "boom" rfl
    (fun p hp => by
      have hpa : p = "a" := by simpa using hp
      exact ⟨42, by rw [hpa]; rfl⟩)
    (by rfl)
  exact ⟨h.1, h.2⟩

/-! ### Chunker (`chunkContent`, fileProcessors.js)

`content.match(/[^.!?]+[.!?]+|\s+/g)` scans left to right; at each position
the first alternative (a non-terminator run followed by a terminator run)
is preferred, then a whitespace run; where neither matches the scan advances
one character, dropping that character from the token stream.  The token
stream is then folded into chunks, flushing the trimmed buffer whenever
appending the next token would exceed `maxChunkSize`. -/

/-- A sentence-terminator character of the chunking regex. -/
def isTerm (c : Char) : Bool := c == '.' || c == '!' || c == '?'

/-- The JavaScript `\s` class (also the set trimmed by `String.trim`). -/
def isSpaceJS (c : Char) : Bool :=
  c == ' ' || c == '\t' || c == '\n' || c == '\r' || c.toNat == 0x0b || c.toNat == 0x0c ||
  c.toNat == 0xa0 || c.toNat == 0x1680 || (0x2000 <= c.toNat && c.toNat <= 0x200a) ||
  c.toNat == 0x2028 || c.toNat == 0x2029 || c.toNat == 0x202f || c.toNat == 0x205f ||
  c.toNat == 0x3000 || c.toNat == 0xfeff

/-- `String.prototype.trim`. -/
def trimJS (s : List Char) : List Char :=
  (((s.dropWhile isSpaceJS).reverse).dropWhile isSpaceJS).reverse

/-- Fuel-indexed global matcher for `/[^.!?]+[.!?]+|\s+/g`; fuel equal to
the input length never runs out, since every step consumes at least one
character. -/
def tokenizeF : Nat → List Char → List (List Char)
  | 0, _ => []
  | _ + 1, [] => []
  | fuel + 1, c :: cs =>
    if isTerm c then tokenizeF fuel cs
    else
      let rest := (c :: cs).dropWhile (fun x => !isTerm x)
      if rest.isEmpty then
        if isSpaceJS c then
          (c :: cs).takeWhile isSpaceJS :: tokenizeF fuel ((c :: cs).dropWhile isSpaceJS)
        else tokenizeF fuel cs
      else
        ((c :: cs).takeWhile (fun x => !isTerm x) ++ rest.takeWhile isTerm)
          :: tokenizeF fuel (rest.dropWhile isTerm)

/-- `content.match(/[^.!?]+[.!?]+|\s+/g) || []`. -/
def tokenize (s : List Char) : List (List Char) := tokenizeF s.length s

/-- `MAX_CHUNK_SIZE` (fileProcessors.js). -/
def MAX_CHUNK_SIZE : Nat := 2000

/-- One iteration of the chunking loop: flush the trimmed buffer when
appending the next token would exceed the limit and the buffer is
non-empty, then append the token to the (possibly reset) buffer. -/
def chunkOne (maxChunkSize : Nat) (acc : List (List Char) × List Char)
    (sentence : List Char) : List (List Char) × List Char :=
  if maxChunkSize < (acc.2 ++ sentence).length ∧ 0 < acc.2.length then
    (acc.1 ++ [trimJS acc.2], sentence)
  else
    (acc.1, acc.2 ++ sentence)

/-- `chunkContent` (fileProcessors.js lines 31–61). -/
def chunkContent (content : List Char) (maxChunkSize : Nat := MAX_CHUNK_SIZE) :
    List (List Char) :=
  let r := (tokenize content).foldl (chunkOne maxChunkSize) ([], [])
  if 0 < (trimJS r.2).length then r.1 ++ [trimJS r.2] else r.1

/-- Splitting off the trailing run satisfying `p`. -/
theorem eq_append_trailing (p : Char → Bool) (l : List Char) :
    l = (l.reverse.dropWhile p).reverse ++ (l.reverse.takeWhile p).reverse := by
  conv_lhs => rw [← List.reverse_reverse l,
    ← List.takeWhile_append_dropWhile (p := p) (l := l.reverse)]
  rw [List.reverse_append]

/-- Every string is leading whitespace, its trim, then trailing whitespace. -/
theorem trimJS_decomp (s : List Char) :
    ∃ l r, s = l ++ trimJS s ++ r ∧ (∀ c ∈ l, isSpaceJS c) ∧ (∀ c ∈ r, isSpaceJS c) := by
  refine ⟨s.takeWhile isSpaceJS,
    (((s.dropWhile isSpaceJS).reverse).takeWhile isSpaceJS).reverse, ?_, ?_, ?_⟩
  · conv_lhs => rw [← List.takeWhile_append_dropWhile (p := isSpaceJS) (l := s)]
    rw [List.append_assoc]
    congr 1
    exact eq_append_trailing isSpaceJS (s.dropWhile isSpaceJS)
  · intro c hc
    exact List.mem_takeWhile_imp hc
  · intro c hc
    exact List.mem_takeWhile_imp (List.mem_reverse.mp hc)

/-- A string with an empty trim is all whitespace. -/
theorem trimJS_nil_all_space {s : List Char} (h : trimJS s = []) :
    ∀ c ∈ s, isSpaceJS c := by
  have h1 : ((s.dropWhile isSpaceJS).reverse).dropWhile isSpaceJS = [] := by
    have h2 := congrArg List.reverse h
    simpa [trimJS] using h2
  have h2 : ∀ c ∈ (s.dropWhile isSpaceJS).reverse, isSpaceJS c :=
    List.dropWhile_eq_nil_iff.mp h1
  intro c hc
  rw [← List.takeWhile_append_dropWhile (p := isSpaceJS) (l := s)] at hc
  rcases List.mem_append.mp hc with hm | hm
  · exact List.mem_takeWhile_imp hm
  · exact h2 c (List.mem_reverse.mpr hm)

/-- Trimming never lengthens a string. -/
theorem trimJS_length_le (s : List Char) : (trimJS s).length ≤ s.length := by
  obtain ⟨l, r, hs, _, _⟩ := trimJS_decomp s
  have hlen := congrArg List.length hs
  simp only [List.length_append] at hlen
  omega

/-- The input is the chunks interleaved with whitespace: an optional leading
whitespace run, each chunk in order, whitespace runs between and after. -/
inductive ReconWS : List Char → List (List Char) → Prop where
  | nil (w : List Char) (hw : ∀ c ∈ w, isSpaceJS c) : ReconWS w []
  | cons (w chunk rest : List Char) (chunks : List (List Char))
      (hw : ∀ c ∈ w, isSpaceJS c) (h : ReconWS rest chunks) :
      ReconWS (w ++ chunk ++ rest) (chunk :: chunks)

theorem ReconWS.ws_prepend {s : List Char} {ch : List (List Char)} (w : List Char)
    (hw : ∀ c ∈ w, isSpaceJS c) (h : ReconWS s ch) : ReconWS (w ++ s) ch := by
  induction h with
  | nil w2 hw2 =>
    refine .nil (w ++ w2) ?_
    intro c hc
    rcases List.mem_append.mp hc with hm | hm
    exacts [hw c hm, hw2 c hm]
  | cons w2 chunk rest chunks hw2 hr ih =>
    have hassoc : w ++ (w2 ++ chunk ++ rest) = (w ++ w2) ++ chunk ++ rest := by
      simp [List.append_assoc]
    rw [hassoc]
    refine .cons _ _ _ _ ?_ hr
    intro c hc
    rcases List.mem_append.mp hc with hm | hm
    exacts [hw c hm, hw2 c hm]

theorem ReconWS_join_bufs :
    ∀ (bufs : List (List Char)) (tail : List Char) (ch : List (List Char)),
    ReconWS tail ch → ReconWS (bufs.flatten ++ tail) (bufs.map trimJS ++ ch)
  | [], tail, ch, h => by simpa using h
  | b :: bs, tail, ch, h => by
    obtain ⟨l, r, hb, hl, hr⟩ := trimJS_decomp b
    have ih := ReconWS_join_bufs bs tail ch h
    have ih2 := ReconWS.ws_prepend r hr ih
    have heq : (b :: bs).flatten ++ tail = l ++ trimJS b ++ (r ++ (bs.flatten ++ tail)) := by
      conv_lhs => rw [List.flatten_cons, hb]
      simp [List.append_assoc]
    rw [heq, List.map_cons, List.cons_append]
    exact .cons _ _ _ _ hl ih2

/-- The chunk list accumulated by the fold is the trims of a partition of
the consumed tokens into consecutive buffers, and the pending buffer holds
the rest of the consumed characters. -/
theorem chunkFold_bufs (max : Nat) :
    ∀ (sentences chunks : List (List Char)) (current : List Char),
    ∃ bufs : List (List Char),
      (sentences.foldl (chunkOne max) (chunks, current)).1 = chunks ++ bufs.map trimJS ∧
      bufs.flatten ++ (sentences.foldl (chunkOne max) (chunks, current)).2 =
        current ++ sentences.flatten
  | [], chunks, current => ⟨[], by simp, by simp⟩
  | s :: ss, chunks, current => by
    rw [List.foldl_cons]
    by_cases hc : max < (current ++ s).length ∧ 0 < current.length
    · have hc1 : max < current.length + s.length := by simpa using hc.1
      have hstep : chunkOne max (chunks, current) s = (chunks ++ [trimJS current], s) := by
        simp [chunkOne, hc1, hc.2]
      rw [hstep]
      obtain ⟨bufs, h1, h2⟩ := chunkFold_bufs max ss (chunks ++ [trimJS current]) s
      refine ⟨current :: bufs, ?_, ?_⟩
      · rw [h1]
        simp
      · simp only [List.flatten_cons, List.append_assoc, List.append_assoc] at h2 ⊢
        rw [h2]
    · have hstep : chunkOne max (chunks, current) s = (chunks, current ++ s) := by
        simp only [chunkOne, if_neg hc]
      rw [hstep]
      obtain ⟨bufs, h1, h2⟩ := chunkFold_bufs max ss chunks (current ++ s)
      refine ⟨bufs, h1, ?_⟩
      simp only [List.flatten_cons] at h2 ⊢
      rw [h2]
      simp [List.append_assoc]

/-- Size invariant of the fold: every flushed chunk is within the limit or
is the trim of a single oversized token, and the pending buffer is empty,
within the limit, or a single oversized token. -/
theorem chunkFold_size (max : Nat) (S : List (List Char)) :
    ∀ (sentences chunks : List (List Char)) (current : List Char),
    (∀ s ∈ sentences, s ∈ S) →
    (∀ ch ∈ chunks, ch.length ≤ max ∨ ∃ tok ∈ S, ch = trimJS tok ∧ max < tok.length) →
    (current = [] ∨ current.length ≤ max ∨ ∃ tok ∈ S, current = tok ∧ max < tok.length) →
    (∀ ch ∈ (sentences.foldl (chunkOne max) (chunks, current)).1,
      ch.length ≤ max ∨ ∃ tok ∈ S, ch = trimJS tok ∧ max < tok.length) ∧
    ((sentences.foldl (chunkOne max) (chunks, current)).2 = [] ∨
      (sentences.foldl (chunkOne max) (chunks, current)).2.length ≤ max ∨
      ∃ tok ∈ S, (sentences.foldl (chunkOne max) (chunks, current)).2 = tok ∧
        max < tok.length)
  | [], chunks, current, _, hch, hcur => ⟨hch, hcur⟩
  | s :: ss, chunks, current, hS, hch, hcur => by
    rw [List.foldl_cons]
    have hsS : s ∈ S := hS s (by simp)
    have hssS : ∀ x ∈ ss, x ∈ S := fun x hx => hS x (by simp [hx])
    have hsCases : s.length ≤ max ∨ ∃ tok ∈ S, s = tok ∧ max < tok.length := by
      by_cases hls : s.length ≤ max
      · exact Or.inl hls
      · exact Or.inr ⟨s, hsS, rfl, by omega⟩
    by_cases hc : max < (current ++ s).length ∧ 0 < current.length
    · have hc1 : max < current.length + s.length := by simpa using hc.1
      have hstep : chunkOne max (chunks, current) s = (chunks ++ [trimJS current], s) := by
        simp [chunkOne, hc1, hc.2]
      rw [hstep]
      refine chunkFold_size max S ss (chunks ++ [trimJS current]) s hssS ?_ ?_
      · intro ch hchm
        rcases List.mem_append.mp hchm with hm | hm
        · exact hch ch hm
        · have hcheq : ch = trimJS current := by simpa using hm
          subst hcheq
          rcases hcur with h0 | hle | ⟨tok, htS, hteq, htlen⟩
          · rw [h0] at hc
            simp at hc
          · exact Or.inl ((trimJS_length_le current).trans hle)
          · exact Or.inr ⟨tok, htS, by rw [hteq], htlen⟩
      · rcases hsCases with h | h
        exacts [Or.inr (Or.inl h), Or.inr (Or.inr h)]
    · have hstep : chunkOne max (chunks, current) s = (chunks, current ++ s) := by
        simp only [chunkOne, if_neg hc]
      rw [hstep]
      refine chunkFold_size max S ss chunks (current ++ s) hssS hch ?_
      by_cases h0 : current = []
      · subst h0
        rcases hsCases with h | h
        exacts [Or.inr (Or.inl (by simpa using h)), Or.inr (Or.inr (by simpa using h))]
      · have hlen : (current ++ s).length ≤ max := by
          rcases not_and_or.mp hc with h | h
          · omega
          · exact absurd (List.length_pos.mpr h0) h
        exact Or.inr (Or.inl hlen)

theorem ReconWS_nil_inv {s : List Char} (h : ReconWS s []) : ∀ c ∈ s, isSpaceJS c := by
  cases h with
  | nil w hw => exact hw

/-- Claim C1 as stated is false on the code: the chunking regex only emits
terminated sentences and whitespace runs, so input with no sentence
terminator — here `"abc"` — produces no tokens and no chunks at all, and
the (non-whitespace) input cannot be reconstructed from the chunks. -/
theorem chunkContent_drops_unterminated_text :
    chunkContent (String.toList "abc") 2000 = [] ∧
    ¬ ReconWS (String.toList "abc") (chunkContent (String.toList "abc") 2000) := by
  have h : chunkContent (String.toList "abc") 2000 = [] := by decide
  refine ⟨h, ?_⟩
  rw [h]
  intro hr
  have ha := ReconWS_nil_inv hr 'a' (by decide)
  exact absurd ha (by decide)

/-- Claim C1 (amended): for every input that the sentence/whitespace
tokenizer covers (the concatenation of the regex matches is the whole
input), the chunks reconstruct the input up to whitespace at chunk
boundaries, and every chunk is within `maxChunkSize` except a chunk that is
the trim of a single token longer than `maxChunkSize`. -/
theorem chunkContent_reconstructs_and_bounds (content : List Char) (max : Nat)
    (hcov : (tokenize content).flatten = content) :
    ReconWS content (chunkContent content max) ∧
    ∀ ch ∈ chunkContent content max, ch.length ≤ max ∨
      ∃ tok ∈ tokenize content, ch = trimJS tok ∧ max < tok.length := by
  obtain ⟨bufs, h1, h2⟩ := chunkFold_bufs max (tokenize content) [] []
  have hsize := chunkFold_size max (tokenize content) (tokenize content) [] []
    (fun s hs => hs) (by simp) (Or.inl rfl)
  set r := (tokenize content).foldl (chunkOne max) ([], []) with hr
  simp only [List.nil_append] at h1 h2
  have hcontent : bufs.flatten ++ r.2 = content := by rw [h2, hcov]
  constructor
  · rw [chunkContent, ← hr]
    by_cases hz : 0 < (trimJS r.2).length
    · simp only [if_pos hz]
      obtain ⟨l, w, hdec, hl, hw⟩ := trimJS_decomp r.2
      have htail : ReconWS r.2 [trimJS r.2] := by
        nth_rewrite 1 [hdec]
        exact .cons _ _ _ _ hl (.nil w hw)
      rw [← hcontent, h1]
      exact ReconWS_join_bufs bufs r.2 [trimJS r.2] htail
    · simp only [if_neg hz]
      have hnil : trimJS r.2 = [] := by
        rcases List.eq_nil_or_concat (trimJS r.2) with h | ⟨_, _, h⟩
        · exact h
        · exfalso
          apply hz
          rw [h]
          simp
      have htail : ReconWS r.2 [] := .nil r.2 (trimJS_nil_all_space hnil)
      rw [← hcontent, h1]
      have := ReconWS_join_bufs bufs r.2 [] htail
      simpa using this
  · intro ch hch
    rw [chunkContent, ← hr] at hch
    by_cases hz : 0 < (trimJS r.2).length
    · simp only [if_pos hz] at hch
      rcases List.mem_append.mp hch with hm | hm
      · exact hsize.1 ch hm
      · have hcheq : ch = trimJS r.2 := by simpa using hm
        subst hcheq
        rcases hsize.2 with h0 | hle | ⟨tok, htS, hteq, htlen⟩
        · rw [h0] at hz
          simp [trimJS] at hz
        · exact Or.inl ((trimJS_length_le r.2).trans hle)
        · exact Or.inr ⟨tok, htS, by rw [hteq], htlen⟩
    · simp only [if_neg hz] at hch
      exact hsize.1 ch hch

/-- Witness for C1 (amended): the tokenizer covers `"Hi. Yo."`, and the
conclusion holds for it. -/
theorem chunkContent_reconstructs_and_bounds_witness :
    (tokenize (String.toList "Hi. Yo.")).flatten = String.toList "Hi. Yo." ∧
    ReconWS (String.toList "Hi. Yo.") (chunkContent (String.toList "Hi. Yo.") 2000) ∧
    ∀ ch ∈ chunkContent (String.toList "Hi. Yo.") 2000, ch.length ≤ 2000 ∨
      ∃ tok ∈ tokenize (String.toList "Hi. Yo."), ch = trimJS tok ∧ 2000 < tok.length := by
  have h := chunkContent_reconstructs_and_bounds (String.toList "Hi. Yo.") 2000 (by decide)
  exact ⟨by decide, h.1, h.2⟩

/-- No token is ever flushed when the whole input fits within the limit. -/
theorem chunkFold_noflush (max : Nat) :
    ∀ (sentences chunks : List (List Char)) (current : List Char),
    (current ++ sentences.flatten).length ≤ max →
    sentences.foldl (chunkOne max) (chunks, current) =
      (chunks, current ++ sentences.flatten)
  | [], chunks, current, _ => by simp
  | s :: ss, chunks, current, hle => by
    rw [List.foldl_cons]
    have hlen : (current ++ s).length ≤ max := by
      simp only [List.flatten_cons, List.length_append] at hle ⊢
      omega
    have hstep : chunkOne max (chunks, current) s = (chunks, current ++ s) := by
      have : ¬ (max < (current ++ s).length ∧ 0 < current.length) := by
        intro h
        omega
      simp only [chunkOne, if_neg this]
    rw [hstep]
    have hle2 : ((current ++ s) ++ ss.flatten).length ≤ max := by
      simp only [List.flatten_cons, List.length_append] at hle ⊢
      omega
    rw [chunkFold_noflush max ss chunks (current ++ s) hle2]
    simp [List.append_assoc]

/-- Claim C5 as stated is false on the code: `"abc"` is non-empty and far
shorter than the limit, but yields zero chunks rather than one trimmed
chunk, because the tokenizer drops unterminated text. -/
theorem chunkContent_short_cex :
    String.toList "abc" ≠ [] ∧
    (String.toList "abc").length < 2000 ∧
    trimJS (String.toList "abc") = String.toList "abc" ∧
    chunkContent (String.toList "abc") 2000 = [] := by
  refine ⟨by decide, by decide, by decide, by decide⟩

/-- Claim C5 (amended): for input covered by the tokenizer whose trim is
non-empty and whose length is below `maxChunkSize`, `chunkContent` returns
exactly one chunk: the trimmed input. -/
theorem chunkContent_short_single (content : List Char) (max : Nat)
    (hcov : (tokenize content).flatten = content)
    (hne : trimJS content ≠ [])
    (hlen : content.length < max) :
    chunkContent content max = [trimJS content] := by
  have hfold := chunkFold_noflush max (tokenize content) [] [] (by
    simp only [List.nil_append, hcov]
    omega)
  rw [chunkContent, hfold]
  simp only [List.nil_append, hcov]
  have hz : 0 < (trimJS content).length := List.length_pos.mpr hne
  simp [hz]

/-- Witness for C5 (amended): `"Ok!"` is covered, trims to itself, is
shorter than 2000, and chunks to exactly itself. -/
theorem chunkContent_short_single_witness :
    chunkContent (String.toList "Ok!") 2000 = [trimJS (String.toList "Ok!")] ∧
    trimJS (String.toList "Ok!") = String.toList "Ok!" := by
  refine ⟨chunkContent_short_single (String.toList "Ok!") 2000
    (by decide) (by decide) (by decide), by decide⟩

/-! ### Locator (`parseSharePointUrl`, part_004 lines 72–92)

`String.prototype.split` with a string separator, indexing `[1]` of the
result (a `TypeError` when the separator does not occur, since `[1]` is
`undefined` and `.split` is then called on it), and `decodeURIComponent`
(a collaborator, passed as an oracle). -/

/-- The first occurrence of `sep` in `s`: the part before it and the part
after it. -/
def findSplit (sep : List Char) : List Char → Option (List Char × List Char)
  | [] => none
  | c :: cs =>
    if sep.isPrefixOf (c :: cs) then some ([], (c :: cs).drop sep.length)
    else
      match findSplit sep cs with
      | some (pre, post) => some (c :: pre, post)
      | none => none

/-- Fuel-indexed `String.prototype.split` with a non-empty string
separator; fuel equal to the input length never runs out. -/
def splitOnF (sep : List Char) : Nat → List Char → List (List Char)
  | 0, s => [s]
  | fuel + 1, s =>
    match findSplit sep s with
    | none => [s]
    | some (pre, post) => pre :: splitOnF sep fuel post

/-- `s.split(sep)` for a non-empty string separator. -/
def splitOnJS (sep s : List Char) : List (List Char) := splitOnF sep s.length s

/-- Indexing `[1]` into a split result and then calling a method on it:
a `TypeError` when the split produced fewer than two parts. -/
def getIdx1 (xs : List (List Char)) : Except JsError (List Char) :=
  match xs with
  | _ :: second :: _ => .ok second
  | _ => .error "TypeError: Cannot read properties of undefined"

/-- The parsed components returned by `parseSharePointUrl`. -/
structure SPUrlParts where
  tenantName : String
  sitePath : String
  filePath : String
deriving Repr, DecidableEq

/-- `parseSharePointUrl` (part_004 lines 72–92), over the `hostname` and
`pathname` of the already-constructed `URL` object.  `decode` models
`decodeURIComponent`, which throws a `URIError` on a malformed component. -/
def parseSharePointUrl (decode : String → Except JsError String)
    (hostname pathname : String) : Except JsError SPUrlParts := do
  let tenantName := String.mk ((splitOnJS ('.' :: []) hostname.toList).headD [])
  let seg ← getIdx1 (splitOnJS (String.toList "/sites/") pathname.toList)
  let sitePath := String.mk ((splitOnJS ('/' :: []) seg).headD [])
  let seg2 ← getIdx1 (splitOnJS (String.toList "/Shared%20Documents/") pathname.toList)
  let filePath ← decode (String.mk ((splitOnJS ('?' :: []) seg2).headD []))
  pure { tenantName := tenantName, sitePath := sitePath, filePath := filePath }

/-- `findSplit` returns `none` exactly when the separator never occurs. -/
theorem findSplit_none_iff (sep : List Char) (hsep : sep ≠ []) :
    ∀ s : List Char, findSplit sep s = none ↔ ¬ ∃ pre post, s = pre ++ sep ++ post
  | [] => by
    have hsl : 0 < sep.length := List.length_pos.mpr hsep
    constructor
    · rintro _ ⟨pre, post, hs⟩
      have hlen := congrArg List.length hs
      simp only [List.length_nil, List.length_append] at hlen
      omega
    · intro _
      rfl
  | c :: cs => by
    have hsl : 0 < sep.length := List.length_pos.mpr hsep
    rw [findSplit]
    by_cases hp : sep.isPrefixOf (c :: cs)
    · simp only [if_pos hp]
      constructor
      · intro h
        exact absurd h (by simp)
      · intro h
        exfalso
        apply h
        obtain ⟨post, hpost⟩ := List.isPrefixOf_iff_prefix.mp hp
        exact ⟨[], post, by simpa using hpost.symm⟩
    · simp only [if_neg hp]
      have ih := findSplit_none_iff sep hsep cs
      rcases hfs : findSplit sep cs with _ | ⟨pre, post⟩
      · simp only [hfs]
        constructor
        · rintro _ ⟨pre, post, hs⟩
          rcases pre with _ | ⟨p, ps⟩
          · apply hp
            rw [List.isPrefixOf_iff_prefix]
            exact ⟨post, by simpa using hs.symm⟩
          · have hs2 : c = p ∧ cs = ps ++ (sep ++ post) := by simpa using hs
            exact (ih.mp hfs) ⟨ps, post, hs2.2.trans (List.append_assoc ps sep post).symm⟩
        · intro _
          trivial
      · simp only [hfs]
        constructor
        · intro h
          exact absurd h (by simp)
        · intro h
          exfalso
          have hocc : ∃ pre2 post2, cs = pre2 ++ sep ++ post2 := by
            by_contra hno
            have hn := ih.mpr hno
            rw [hfs] at hn
            exact absurd hn (by simp)
          obtain ⟨pre2, post2, hcs⟩ := hocc
          exact h ⟨c :: pre2, post2, by simp [hcs]⟩

/-- When the separator never occurs, `split` returns the whole string as
its only part. -/
theorem splitOnJS_no_occurrence (sep s : List Char) (hsep : sep ≠ [])
    (h : ¬ ∃ pre post, s = pre ++ sep ++ post) : splitOnJS sep s = [s] := by
  have hnone : findSplit sep s = none := (findSplit_none_iff sep hsep s).mpr h
  rw [splitOnJS]
  cases hl : s.length with
  | zero => rw [splitOnF]
  | succ n =>
    rw [splitOnF, hnone]

theorem splitOnF_ne_nil (sep : List Char) : ∀ fuel s, splitOnF sep fuel s ≠ []
  | 0, s => by
    rw [splitOnF]
    simp
  | fuel + 1, s => by
    rw [splitOnF]
    rcases findSplit sep s with _ | ⟨pre, post⟩ <;> simp

/-- When the separator occurs, indexing `[1]` of the split succeeds. -/
theorem getIdx1_splitOnJS_ok (sep s : List Char) (hsep : sep ≠ [])
    (hocc : ∃ pre post, s = pre ++ sep ++ post) :
    ∃ seg, getIdx1 (splitOnJS sep s) = .ok seg := by
  have hsl : 0 < sep.length := List.length_pos.mpr hsep
  have hslen : 0 < s.length := by
    obtain ⟨pre, post, hs⟩ := hocc
    have := congrArg List.length hs
    simp only [List.length_append] at this
    omega
  obtain ⟨n, hn⟩ : ∃ n, s.length = n + 1 := ⟨s.length - 1, by omega⟩
  have hsome : findSplit sep s ≠ none := by
    intro hnone
    exact ((findSplit_none_iff sep hsep s).mp hnone) hocc
  rcases hfs : findSplit sep s with _ | ⟨pre, post⟩
  · exact absurd hfs hsome
  · rw [splitOnJS, hn, splitOnF, hfs]
    rcases hsp : splitOnF sep n post with _ | ⟨b, rest⟩
    · exact absurd hsp (splitOnF_ne_nil sep n post)
    · refine ⟨b, ?_⟩
      show getIdx1 (pre :: splitOnF sep n post) = Except.ok b
      rw [hsp]
      rfl

theorem exceptBindOk {E A B : Type} (x : A) (f : A → Except E B) :
    (Except.ok x : Except E A) >>= f = f x := rfl

theorem exceptBindErr {E A B : Type} (e : E) (f : A → Except E B) :
    (Except.error e : Except E A) >>= f = .error e := rfl

/-- The raw (still percent-encoded) file path component that
`parseSharePointUrl` extracts before decoding. -/
def sharedDocsRaw (pathname : String) : Except JsError (List Char) := do
  let seg2 ← getIdx1 (splitOnJS (String.toList "/Shared%20Documents/") pathname.toList)
  pure ((splitOnJS ('?' :: []) seg2).headD [])

/-- Claim C9 as stated is false on the code: a reference whose file path
component decodes to the empty string is not rejected —
`parseSharePointUrl` returns it with `filePath = ""`. -/
theorem parseSharePointUrl_accepts_empty_path :
    parseSharePointUrl (fun s => .ok s) "contoso.sharepoint.com"
      "/sites/eng/Shared%20Documents/" =
      .ok { tenantName := "contoso", sitePath := "eng", filePath := "" } := by
  rfl

/-- Claim C9 (amended): `parseSharePointUrl` fails when the reference lacks
a `/sites/` segment, fails when it lacks a `/Shared%20Documents/` segment,
propagates a failure of percent-decoding, and on success returns exactly
the decoded file path component — including the empty string, which it
does not reject. -/
theorem parseSharePointUrl_spec (decode : String → Except JsError String)
    (hostname pathname : String) :
    ((¬ ∃ pre post, pathname.toList = pre ++ String.toList "/sites/" ++ post) →
      ∃ e, parseSharePointUrl decode hostname pathname = .error e) ∧
    ((¬ ∃ pre post,
        pathname.toList = pre ++ String.toList "/Shared%20Documents/" ++ post) →
      ∃ e, parseSharePointUrl decode hostname pathname = .error e) ∧
    (∀ raw,
      (∃ pre post, pathname.toList = pre ++ String.toList "/sites/" ++ post) →
      sharedDocsRaw pathname = .ok raw →
      (∀ e, decode (String.mk raw) = .error e →
        parseSharePointUrl decode hostname pathname = .error e) ∧
      (∀ fp, decode (String.mk raw) = .ok fp →
        ∃ parts, parseSharePointUrl decode hostname pathname = .ok parts ∧
          parts.filePath = fp)) := by
  refine ⟨?_, ?_, ?_⟩
  · intro hno
    have hsplit : splitOnJS (String.toList "/sites/") pathname.toList =
        [pathname.toList] :=
      splitOnJS_no_occurrence _ _ (by decide) hno
    refine ⟨"TypeError: Cannot read properties of undefined", ?_⟩
    rw [parseSharePointUrl, hsplit]
    rfl
  · intro hno
    have hsplit : splitOnJS (String.toList "/Shared%20Documents/") pathname.toList =
        [pathname.toList] :=
      splitOnJS_no_occurrence _ _ (by decide) hno
    rw [parseSharePointUrl]
    rcases h1 : getIdx1 (splitOnJS (String.toList "/sites/") pathname.toList) with
      e1 | seg
    · exact ⟨e1, rfl⟩
    · refine ⟨"TypeError: Cannot read properties of undefined", ?_⟩
      rw [hsplit]
      rfl
  · intro raw hsites hraw
    obtain ⟨seg, hseg⟩ := getIdx1_splitOnJS_ok _ _ (by decide) hsites
    rcases h2 : getIdx1 (splitOnJS (String.toList "/Shared%20Documents/")
        pathname.toList) with e2 | seg2
    · rw [sharedDocsRaw, h2] at hraw
      exact absurd hraw (by simp)
    · rw [sharedDocsRaw, h2] at hraw
      have hrw : raw = (splitOnJS ('?' :: []) seg2).headD [] := by
        have hok : Except.ok ((splitOnJS ('?' :: []) seg2).headD []) =
            (Except.ok raw : Except JsError (List Char)) := hraw
        exact (Except.ok.inj hok).symm
      subst hrw
      constructor
      · intro e hdec
        rw [parseSharePointUrl, hseg, h2]
        simp only [exceptBindOk]
        rw [hdec]
        rfl
      · intro fp hdec
        rw [parseSharePointUrl, hseg, h2]
        simp only [exceptBindOk]
        rw [hdec]
        exact ⟨_, rfl, rfl⟩

/-- Witness for C9 (amended): a pathname with no `/sites/` segment fails,
and for a well-formed pathname the decoded component is returned as
`filePath`. -/
theorem parseSharePointUrl_spec_witness :
    (∃ e, parseSharePointUrl (fun s => .ok s) "contoso.sharepoint.com"
      "/teams/eng/Shared%20Documents/x.txt" = .error e) ∧
    (∃ parts, parseSharePointUrl (fun s => .ok s) "contoso.sharepoint.com"
      "/sites/eng/Shared%20Documents/doc.txt" = .ok parts ∧
      parts.filePath = "doc.txt") := by
  constructor
  · exact (parseSharePointUrl_spec (fun s => .ok s) "contoso.sharepoint.com"
      "/teams/eng/Shared%20Documents/x.txt").1
      ((findSplit_none_iff (String.toList "/sites/") (by decide)
        (String.toList "/teams/eng/Shared%20Documents/x.txt")).mp (by decide))
  · exact ((parseSharePointUrl_spec (fun s => .ok s) "contoso.sharepoint.com"
      "/sites/eng/Shared%20Documents/doc.txt").2.2 (String.toList "doc.txt")
      ⟨[], String.toList "eng/Shared%20Documents/doc.txt", by decide⟩
      (by rfl)).2 "doc.txt" rfl

/-! ### Extractor (`extractTextContent`, fileProcessors.js lines 119–156)

Dispatch on the lower-cased extension.  The four format-specific parsers
(mammoth, exceljs, pdf-parse, `buffer.toString`) are external collaborators,
passed as the outcome each would produce on this file's buffer. -/

/-- The case labels of the `switch` in `extractTextContent`. -/
def supportedExtensions : List (List Char) :=
  [String.toList ".docx", String.toList ".xlsx", String.toList ".pdf",
   String.toList ".txt"]

/-- `extractTextContent`: dispatch on `fileExtension.toLowerCase()`; the
default case throws naming the (original) extension argument. -/
def extractTextContent (docx xlsx pdf txt : Except JsError String)
    (fileExtension : List Char) : Except JsError String :=
  let e := toLowerJS fileExtension
  if e = String.toList ".docx" then docx
  else if e = String.toList ".xlsx" then xlsx
  else if e = String.toList ".pdf" then pdf
  else if e = String.toList ".txt" then txt
  else .error ("Unsupported file format: " ++ String.mk fileExtension)

/-! ### Index synchronisation (`searchService.js`) and the pipeline
(`processSharePointFile`, fileProcessors.js lines 164–250)

The search index is a list of documents keyed by `docId` (an `Edm.String`
key).  `deleteExistingDocuments` queries the ids of documents whose
`fileUrl` equals the given URL and deletes them; the raw SDK
`searchClient.uploadDocuments` (which `processChunks` calls directly, not
the checking wrapper `uploadDocuments` of searchService.js) upserts the
documents and reports a per-document outcome without throwing on
per-document failure. -/

/-- OData string equality against a string field. -/
def jsStrEq : JSValue → JSValue → Bool
  | .str a, .str b => a = b
  | _, _ => false

/-- `deleteExistingDocuments` (searchService.js lines 38–68): collect the
`docId`s of documents whose `fileUrl` matches, delete those ids; a service
failure is re-thrown wrapped.  `deleteOk` models the search service being
reachable. -/
def deleteExistingDocuments (deleteOk : Bool) (index : List Doc)
    (fileUrl : String) : Except JsError (List Doc) :=
  if deleteOk then
    let ids := (index.filter (fun d => jsStrEq d.fileUrl (.str fileUrl))).map (·.docId)
    .ok (index.filter (fun d => !(ids.contains d.docId)))
  else
    .error "Failed to delete existing documents: search service unavailable"

/-- The raw SDK `searchClient.uploadDocuments`: upsert by `docId`; the
documents whose per-document outcome is `succeeded` replace any existing
document with the same key, failed documents change nothing, and no
exception is raised for per-document failures. -/
def upsertRaw (outcome : Nat → Bool) (docs index : List Doc) : List Doc :=
  let written := ((List.range docs.length).zip docs).filterMap
    (fun p => if outcome p.1 then some p.2 else none)
  let writtenIds := written.map (·.docId)
  index.filter (fun d => !(writtenIds.contains d.docId)) ++ written

/-- Observable stage calls of one pipeline run. -/
inductive Event where
  | extractEv
  | chunkEv
  | embedEv (i : Nat)
  | deleteEv
  | uploadEv
deriving DecidableEq, Repr

/-- The external collaborators of one `processSharePointFile` run (§6 of
the spec): Graph client and lookups, `new URL`, `decodeURIComponent`,
`Date`, the per-chunk per-attempt embedding outcomes, the search client,
and the upsert outcome. -/
structure PipelineEnv where
  graphInit : Except JsError Unit
  urlParts : Except JsError (String × String)
  decode : String → Except JsError String
  siteId : Except JsError String
  driveId : Except JsError String
  fileFetch : Except JsError FileInfo
  extractDocx : Except JsError String
  extractXlsx : Except JsError String
  extractPdf : Except JsError String
  extractTxt : Except JsError String
  dateISO : JSValue → Except JsError String
  dateOk : JSValue → Bool
  attempt : Nat → Nat → Except JsError JSValue
  searchInit : Except JsError Unit
  deleteOk : Bool
  upsertThrow : Option JsError
  upsertOutcome : Nat → Bool

/-- The per-chunk loop of `processChunks` (fileProcessors.js lines 72–106):
embed the chunk (with retries), assemble the document with `chunkIndex =
i + 1`, `webUrl` overridden by the file URL and `totalChunks` the chunk
count, validate it, and re-throw the first failure. -/
def processChunksF (dateISO : JSValue → Except JsError String)
    (dateOk : JSValue → Bool) (attempt : Nat → Nat → Except JsError JSValue)
    (fileInfo : FileInfo) (fileUrl : String) (total : Nat) :
    Nat → List (List Char) → List Event × Except JsError (List Doc)
  | _, [] => ([], .ok [])
  | i, chunk :: rest =>
    match (generateEmbedding (attempt i) 0).2.2 with
    | .error e => ([.embedEv i], .error e)
    | .ok emb =>
      match createSearchDocument dateISO
          { fileId := fileInfo.id, chunkIndex := .num ((i : Int) + 1),
            fileInfo := some { fileInfo with webUrl := .str fileUrl },
            content := .str (String.mk chunk), embedding := emb,
            totalChunks := .num (total : Int) } with
      | .error e => ([.embedEv i], .error e)
      | .ok doc =>
        match validateDocument dateOk doc with
        | .error e => ([.embedEv i], .error e)
        | .ok _ =>
          let r := processChunksF dateISO dateOk attempt fileInfo fileUrl total
            (i + 1) rest
          (.embedEv i :: r.1,
            match r.2 with
            | .ok docs => .ok (doc :: docs)
            | .error e => .error e)

/-- `processChunks` (fileProcessors.js lines 72–110): run the loop, then
upload all assembled documents through the raw search client, returning the
documents regardless of the per-document outcomes. -/
def processChunks (env : PipelineEnv) (chunks : List (List Char))
    (fileInfo : FileInfo) (fileUrl : String) (index : List Doc) :
    List Event × Except JsError (List Doc × List Doc) :=
  let r := processChunksF env.dateISO env.dateOk env.attempt fileInfo fileUrl
    chunks.length 0 chunks
  match r.2 with
  | .error e => (r.1, .error e)
  | .ok docs =>
    match env.upsertThrow with
    | some e => (r.1 ++ [.uploadEv], .error e)
    | none => (r.1 ++ [.uploadEv], .ok (upsertRaw env.upsertOutcome docs index, docs))

/-- The observable result of one `processSharePointFile` run: the stage
calls made, the final index state, the documents assembled by the run, and
the returned message or thrown error. -/
structure RunResult where
  events : List Event
  finalIndex : List Doc
  documents : List Doc
  outcome : Except JsError String
deriving Repr

/-- `processSharePointFile` (fileProcessors.js lines 164–250): Graph
initialisation, URL decomposition (the same three splits as
`parseSharePointUrl`), site/drive/file lookups, extension-dispatched
extraction, chunking, search-client initialisation, deletion of the
documents previously indexed for the URL, then per-chunk
embedding/assembly/validation and the raw batch upload. -/
def runPipeline (env : PipelineEnv) (fileUrl : String) (index0 : List Doc) :
    RunResult :=
  match env.graphInit with
  | .error e => ⟨[], index0, [], .error e⟩
  | .ok _ =>
  match env.urlParts with
  | .error e => ⟨[], index0, [], .error e⟩
  | .ok (hostname, pathname) =>
  match parseSharePointUrl env.decode hostname pathname with
  | .error e => ⟨[], index0, [], .error e⟩
  | .ok _ =>
  match env.siteId with
  | .error e => ⟨[], index0, [], .error e⟩
  | .ok _ =>
  match env.driveId with
  | .error e => ⟨[], index0, [], .error e⟩
  | .ok _ =>
  match env.fileFetch with
  | .error e => ⟨[], index0, [], .error e⟩
  | .ok metadata =>
  match extractTextContent env.extractDocx env.extractXlsx env.extractPdf
      env.extractTxt (toLowerJS (extnameJS metadata.name.toList)) with
  | .error e => ⟨[.extractEv], index0, [], .error e⟩
  | .ok textContent =>
  let chunks := chunkContent textContent.toList MAX_CHUNK_SIZE
  match env.searchInit with
  | .error e => ⟨[.extractEv, .chunkEv], index0, [], .error e⟩
  | .ok _ =>
  match deleteExistingDocuments env.deleteOk index0 fileUrl with
  | .error e => ⟨[.extractEv, .chunkEv, .deleteEv], index0, [], .error e⟩
  | .ok index1 =>
  let pc := processChunks env chunks metadata fileUrl index1
  match pc.2 with
  | .error e => ⟨[.extractEv, .chunkEv, .deleteEv] ++ pc.1, index1, [], .error e⟩
  | .ok (index2, docs) =>
    ⟨[.extractEv, .chunkEv, .deleteEv] ++ pc.1, index2, docs,
      .ok ("Successfully processed " ++ metadata.name ++ " into " ++
        toString docs.length ++ " chunks")⟩

/-- A successfully assembled document stores the metadata's `webUrl` in its
`fileUrl` field. -/
theorem createSearchDocument_fileUrl (dateISO : JSValue → Except JsError String)
    (p : CreateParams) (doc : Doc) (fi : FileInfo) (hfi : p.fileInfo = some fi)
    (h : createSearchDocument dateISO p = .ok doc) : doc.fileUrl = fi.webUrl := by
  rw [createSearchDocument] at h
  by_cases hc : (!truthy p.fileId || p.fileInfo.isNone || !truthy p.content ||
      !truthy p.embedding) = true
  · rw [if_pos hc] at h
    exact absurd h (by simp)
  · rw [if_neg hc] at h
    simp only [hfi] at h
    cases hd : dateISO fi.lastModifiedDateTime with
    | error e =>
      simp only [hd] at h
      exact absurd h (by simp)
    | ok iso =>
      simp only [hd] at h
      have hdoc := Except.ok.inj h
      rw [← hdoc]

/-- Every document produced by the `processChunks` loop carries the file
URL it was called with. -/
theorem processChunksF_fileUrl (dateISO : JSValue → Except JsError String)
    (dateOk : JSValue → Bool) (attempt : Nat → Nat → Except JsError JSValue)
    (fileInfo : FileInfo) (fileUrl : String) (total : Nat) :
    ∀ (chunks : List (List Char)) (i : Nat) (docs : List Doc),
    (processChunksF dateISO dateOk attempt fileInfo fileUrl total i chunks).2 =
      .ok docs →
    ∀ d ∈ docs, d.fileUrl = .str fileUrl
  | [], i, docs, h => by
    rw [processChunksF] at h
    have hd := Except.ok.inj h
    subst hd
    intro d hd
    simp at hd
  | chunk :: rest, i, docs, h => by
    rw [processChunksF] at h
    rcases hemb : (generateEmbedding (attempt i) 0).2.2 with e | emb
    · simp only [hemb] at h
      exact absurd h (by simp)
    · simp only [hemb] at h
      rcases hcsd : createSearchDocument dateISO
          { fileId := fileInfo.id, chunkIndex := .num ((i : Int) + 1),
            fileInfo := some { fileInfo with webUrl := .str fileUrl },
            content := .str (String.mk chunk), embedding := emb,
            totalChunks := .num (total : Int) } with e | doc
      · simp only [hcsd] at h
        exact absurd h (by simp)
      · simp only [hcsd] at h
        rcases hval : validateDocument dateOk doc with e | b
        · simp only [hval] at h
          exact absurd h (by simp)
        · simp only [hval] at h
          rcases hrest : (processChunksF dateISO dateOk attempt fileInfo fileUrl
              total (i + 1) rest).2 with e | docs2
          · simp only [hrest] at h
            exact absurd h (by simp)
          · simp only [hrest] at h
            have hd := Except.ok.inj h
            subst hd
            intro d hd
            rcases List.mem_cons.mp hd with hd | hd
            · subst hd
              exact createSearchDocument_fileUrl dateISO _ d _ rfl hcsd
            · exact processChunksF_fileUrl dateISO dateOk attempt fileInfo
                fileUrl total rest (i + 1) docs2 hrest d hd

/-- With every per-document outcome `succeeded`, the raw upsert writes all
the documents. -/
theorem upsertRaw_all_ok (outcome : Nat → Bool) (hout : ∀ i, outcome i = true)
    (docs index : List Doc) :
    upsertRaw outcome docs index =
      index.filter (fun d => !((docs.map (·.docId)).contains d.docId)) ++ docs := by
  have hfm : ∀ l : List (Nat × Doc),
      l.filterMap (fun p => if outcome p.1 then some p.2 else none) =
        l.map (·.2) := by
    intro l
    induction l with
    | nil => rfl
    | cons p ps ih => simp [List.filterMap_cons, hout p.1, ih]
  have hzip : ((List.range docs.length).zip docs).map (·.2) = docs := by
    apply List.map_snd_zip
    simp
  rw [upsertRaw, hfm, hzip]

/-- After deletion, no remaining document matches the file URL. -/
theorem deleteExistingDocuments_clears (deleteOk : Bool) (index : List Doc)
    (fileUrl : String) (index1 : List Doc)
    (h : deleteExistingDocuments deleteOk index fileUrl = .ok index1) :
    ∀ d ∈ index1, jsStrEq d.fileUrl (.str fileUrl) = false := by
  rw [deleteExistingDocuments] at h
  by_cases hok : deleteOk
  · rw [if_pos hok] at h
    have h1 := Except.ok.inj h
    subst h1
    intro d hd
    rw [List.mem_filter] at hd
    by_contra hne
    have hurl : jsStrEq d.fileUrl (.str fileUrl) = true := by
      cases hjs : jsStrEq d.fileUrl (.str fileUrl)
      · exact absurd hjs hne
      · rfl
    have hcon := hd.2
    simp at hcon
    exact hcon d hd.1 hurl rfl
  · rw [if_neg hok] at h
    exact absurd h (by simp)

/-- Inversion of a successful run: deletion succeeded first, the upload did
not throw, every produced document carries the file URL, and the run's
result is the delete-then-upsert state with the produced documents. -/
theorem runPipeline_ok_inv (env : PipelineEnv) (fileUrl : String)
    (index0 : List Doc) (msg : String)
    (hrun : (runPipeline env fileUrl index0).outcome = .ok msg) :
    ∃ index1 docs evs,
      deleteExistingDocuments env.deleteOk index0 fileUrl = .ok index1 ∧
      (∀ d ∈ docs, d.fileUrl = .str fileUrl) ∧
      runPipeline env fileUrl index0 =
        ⟨[Event.extractEv, Event.chunkEv, Event.deleteEv] ++ (evs ++ [Event.uploadEv]),
         upsertRaw env.upsertOutcome docs index1, docs, .ok msg⟩ := by
  simp only [runPipeline] at hrun
  rcases hgi : env.graphInit with e | u
  · simp only [hgi] at hrun
    exact absurd hrun (by simp)
  · simp only [hgi] at hrun
    rcases hup : env.urlParts with e | ⟨hostname, pathname⟩
    · simp only [hup] at hrun
      exact absurd hrun (by simp)
    · simp only [hup] at hrun
      rcases hparse : parseSharePointUrl env.decode hostname pathname with e | parts
      · simp only [hparse] at hrun
        exact absurd hrun (by simp)
      · simp only [hparse] at hrun
        rcases hsite : env.siteId with e | site
        · simp only [hsite] at hrun
          exact absurd hrun (by simp)
        · simp only [hsite] at hrun
          rcases hdrive : env.driveId with e | drive
          · simp only [hdrive] at hrun
            exact absurd hrun (by simp)
          · simp only [hdrive] at hrun
            rcases hfetch : env.fileFetch with e | metadata
            · simp only [hfetch] at hrun
              exact absurd hrun (by simp)
            · simp only [hfetch] at hrun
              rcases hext : extractTextContent env.extractDocx env.extractXlsx
                  env.extractPdf env.extractTxt
                  (toLowerJS (extnameJS metadata.name.toList)) with e | text
              · simp only [hext] at hrun
                exact absurd hrun (by simp)
              · simp only [hext] at hrun
                rcases hsearch : env.searchInit with e | s
                · simp only [hsearch] at hrun
                  exact absurd hrun (by simp)
                · simp only [hsearch] at hrun
                  rcases hdel : deleteExistingDocuments env.deleteOk index0
                      fileUrl with e | index1
                  · simp only [hdel] at hrun
                    exact absurd hrun (by simp)
                  · simp only [hdel, processChunks] at hrun
                    rcases hpcf : (processChunksF env.dateISO env.dateOk env.attempt
                        metadata fileUrl
                        (chunkContent (String.toList text) MAX_CHUNK_SIZE).length 0
                        (chunkContent (String.toList text) MAX_CHUNK_SIZE)).2 with
                      e | docs
                    · simp only [hpcf] at hrun
                      exact absurd hrun (by simp)
                    · simp only [hpcf] at hrun
                      rcases hthrow : env.upsertThrow with _ | e
                      · simp only [hthrow] at hrun
                        refine ⟨index1, docs,
                          (processChunksF env.dateISO env.dateOk env.attempt
                            metadata fileUrl
                            (chunkContent (String.toList text) MAX_CHUNK_SIZE).length 0
                            (chunkContent (String.toList text) MAX_CHUNK_SIZE)).1,
                          rfl,
                          processChunksF_fileUrl env.dateISO env.dateOk env.attempt
                            metadata fileUrl _ _ _ docs hpcf, ?_⟩
                        simp only [runPipeline, hgi, hup, hparse, hsite, hdrive,
                          hfetch, hext, hsearch, hdel, processChunks, hpcf, hthrow]
                        rw [← hrun]
                      · simp only [hthrow] at hrun
                        exact absurd hrun (by simp)

/-- Claim C2: after a run of `processSharePointFile` that returns its
success message and in which every document of the upsert batch succeeded,
the index holds exactly the documents produced by that run for that URL
(a re-run producing fewer chunks leaves no stale document), and the
deletion call precedes the upload call. -/
theorem processSharePointFile_replaces (env : PipelineEnv) (fileUrl : String)
    (index0 : List Doc) (msg : String)
    (hrun : (runPipeline env fileUrl index0).outcome = .ok msg)
    (hout : ∀ i, env.upsertOutcome i = true) :
    (runPipeline env fileUrl index0).finalIndex.filter
        (fun d => jsStrEq d.fileUrl (.str fileUrl)) =
      (runPipeline env fileUrl index0).documents ∧
    List.Sublist [Event.deleteEv, Event.uploadEv]
      (runPipeline env fileUrl index0).events := by
  obtain ⟨index1, docs, evs, hdel, hurl, heq⟩ :=
    runPipeline_ok_inv env fileUrl index0 msg hrun
  rw [heq]
  dsimp only
  constructor
  · rw [upsertRaw_all_ok env.upsertOutcome hout docs index1, List.filter_append]
    have h1 : (index1.filter
        (fun d => !((docs.map (·.docId)).contains d.docId))).filter
        (fun d => jsStrEq d.fileUrl (.str fileUrl)) = [] := by
      rw [List.filter_eq_nil_iff]
      intro d hdm
      have hd1 : d ∈ index1 := (List.mem_filter.mp hdm).1
      have hclear := deleteExistingDocuments_clears env.deleteOk index0 fileUrl
        index1 hdel d hd1
      simp [hclear]
    have h2 : docs.filter (fun d => jsStrEq d.fileUrl (.str fileUrl)) = docs := by
      rw [List.filter_eq_self]
      intro d hdm
      rw [hurl d hdm]
      simp [jsStrEq]
    rw [h1, h2, List.nil_append]
  · show List.Sublist ([Event.deleteEv] ++ [Event.uploadEv])
      ([Event.extractEv, Event.chunkEv, Event.deleteEv] ++ (evs ++ [Event.uploadEv]))
    refine List.Sublist.append (by decide) ?_
    exact List.sublist_append_right _ _

/-! ### Concrete run environments used by the witnesses and by C4 -/

/-- Metadata of a small plain-text file, as returned by the Graph lookup. -/
def demoFileInfo : FileInfo :=
  { id := .str "f1", name := "report.txt", webUrl := .str "w",
    lastModifiedDateTime := .str "2024-01-01" }

/-- A fully healthy run environment: every collaborator succeeds, every
per-document upsert outcome is `succeeded`. -/
def demoEnv : PipelineEnv :=
  { graphInit := .ok (),
    urlParts := .ok ("contoso.sharepoint.com",
      "/sites/eng/Shared%20Documents/report.txt"),
    decode := fun s => .ok s,
    siteId := .ok "site", driveId := .ok "drive",
    fileFetch := .ok demoFileInfo,
    extractDocx := .error "not docx", extractXlsx := .error "not xlsx",
    extractPdf := .error "not pdf",
    extractTxt := .ok "Old gone. New here.",
    dateISO := fun _ => .ok "2024-01-01T00:00:00.000Z",
    dateOk := fun _ => true,
    attempt := fun _ _ => .ok (.arr [.num 1]),
    searchInit := .ok (), deleteOk := true, upsertThrow := none,
    upsertOutcome := fun _ => true }

/-- The URL being re-indexed in the witness runs. -/
def demoUrl : String :=
  "https://contoso.sharepoint.com/sites/eng/Shared%20Documents/report.txt"

/-- A stale chunk document for `demoUrl` left by a prior 3-chunk run. -/
def staleDoc (i : Nat) : Doc :=
  { docId := "f1-" ++ toString i, docTitle := .str "report.txt",
    filename := .str "report.txt", filetype := .str ".txt",
    fileUrl := .str demoUrl, lastmodified := .str "2023",
    description := .str "old", chunkindex := .num i, totalChuncks := .num 3,
    descriptionVector := .arr [.num 0] }

/-- A document of an unrelated file that must survive the run. -/
def otherDoc : Doc :=
  { docId := "g-1", docTitle := .str "o", filename := .str "o",
    filetype := .str ".txt", fileUrl := .str "https://other",
    lastmodified := .str "2023", description := .str "keep",
    chunkindex := .num 1, totalChuncks := .num 1,
    descriptionVector := .arr [.num 0] }

/-- Witness for C2: re-running over an index holding three stale documents
for the URL (and one foreign document), where the new run produces one
chunk, leaves exactly the run's documents for that URL; the stale `f1-2`
and `f1-3` are gone and the foreign document survives. -/
theorem processSharePointFile_replaces_witness :
    ((runPipeline demoEnv demoUrl
        [staleDoc 1, staleDoc 2, staleDoc 3, otherDoc]).finalIndex.filter
        (fun d => jsStrEq d.fileUrl (.str demoUrl)) =
      (runPipeline demoEnv demoUrl
        [staleDoc 1, staleDoc 2, staleDoc 3, otherDoc]).documents ∧
      List.Sublist [Event.deleteEv, Event.uploadEv]
        (runPipeline demoEnv demoUrl
          [staleDoc 1, staleDoc 2, staleDoc 3, otherDoc]).events) ∧
    ((runPipeline demoEnv demoUrl
        [staleDoc 1, staleDoc 2, staleDoc 3, otherDoc]).finalIndex.map
        (·.docId) = ["g-1", "f1-1"]) := by
  refine ⟨processSharePointFile_replaces demoEnv demoUrl
    [staleDoc 1, staleDoc 2, staleDoc 3, otherDoc]
    "Successfully processed report.txt into 1 chunks" rfl (fun i => rfl), rfl⟩

/-- A run environment identical to `demoEnv` except that the search service
reports the (single) uploaded document as failed. -/
def demoEnvPartial : PipelineEnv :=
  { demoEnv with upsertOutcome := fun _ => false }

/-- Claim C4 is violated by the code: `processChunks` calls the raw SDK
`searchClient.uploadDocuments` (not the checking wrapper `uploadDocuments`
of searchService.js) and ignores the per-document outcomes, so a run in
which the only document of the batch fails to upload still returns the
success message while the index holds none of the run's documents. -/
theorem processSharePointFile_partial_upload_success :
    (runPipeline demoEnvPartial demoUrl []).outcome =
      .ok "Successfully processed report.txt into 1 chunks" ∧
    (runPipeline demoEnvPartial demoUrl []).documents.length = 1 ∧
    (runPipeline demoEnvPartial demoUrl []).finalIndex = [] := by
  exact ⟨rfl, rfl, rfl⟩

/-- `uploadDocuments` of searchService.js (lines 77–104), the checking
wrapper the pipeline never calls: validate every document, upload, and
throw when any per-document outcome is not `succeeded`. -/
def uploadDocumentsService (dateOk : JSValue → Bool) (outcome : Nat → Bool)
    (docs : List Doc) : Except JsError Unit :=
  match firstValidationError (docs.map (validateDocument dateOk)) with
  | some e => .error ("Failed to upload documents: " ++ e)
  | none =>
    let failed := ((List.range docs.length).filter (fun i => !(outcome i))).length
    if 0 < failed then
      .error ("Failed to upload documents: Failed to upload " ++
        toString failed ++ " documents")
    else .ok ()
where
  firstValidationError : List (Except JsError Bool) → Option JsError
    | [] => none
    | .error e :: _ => some e
    | .ok _ :: rest => firstValidationError rest

/-- The checking wrapper does fail on a partial batch: with any document of
the batch reporting failure, `uploadDocuments` throws. -/
theorem uploadDocumentsService_fails_on_partial (dateOk : JSValue → Bool)
    (outcome : Nat → Bool) (docs : List Doc) (i : Nat)
    (hi : i < docs.length) (hfail : outcome i = false) :
    ∃ e, uploadDocumentsService dateOk outcome docs = .error e := by
  rw [uploadDocumentsService]
  cases hv : uploadDocumentsService.firstValidationError
      (docs.map (validateDocument dateOk)) with
  | some e => exact ⟨_, rfl⟩
  | none =>
    have hmem : i ∈ (List.range docs.length).filter (fun i => !(outcome i)) := by
      rw [List.mem_filter]
      exact ⟨List.mem_range.mpr hi, by simp [hfail]⟩
    have hpos : 0 < ((List.range docs.length).filter (fun i => !(outcome i))).length :=
      List.length_pos.mpr (List.ne_nil_of_mem hmem)
    refine ⟨"Failed to upload documents: Failed to upload " ++
      toString ((List.range docs.length).filter (fun i => !(outcome i))).length ++
      " documents", ?_⟩
    simp only [if_pos hpos]

/-- Witness for the checking wrapper theorem: one failing document out of
one makes `uploadDocuments` throw. -/
theorem uploadDocumentsService_fails_on_partial_witness :
    ∃ e, uploadDocumentsService (fun _ => true) (fun _ => false) [otherDoc] =
      .error e := by
  exact uploadDocumentsService_fails_on_partial (fun _ => true) (fun _ => false)
    [otherDoc] 0 (by decide) rfl

/-- Claim C8: an extension outside the supported set makes
`extractTextContent` fail with `Unsupported file format:` naming the
extension, and in a pipeline run neither the chunker nor the embedder is
ever called in that case — when extraction was reached at all, the run's
error is the unsupported-format error. -/
theorem extractTextContent_unsupported (docx xlsx pdf txt : Except JsError String)
    (ext : List Char) (env : PipelineEnv) (fileUrl : String) (index0 : List Doc)
    (metadata : FileInfo) :
    (toLowerJS ext ∉ supportedExtensions →
      extractTextContent docx xlsx pdf txt ext =
        .error ("Unsupported file format: " ++ String.mk ext)) ∧
    (env.fileFetch = .ok metadata →
      toLowerJS (toLowerJS (extnameJS metadata.name.toList)) ∉ supportedExtensions →
      Event.chunkEv ∉ (runPipeline env fileUrl index0).events ∧
      (∀ i, Event.embedEv i ∉ (runPipeline env fileUrl index0).events) ∧
      (Event.extractEv ∈ (runPipeline env fileUrl index0).events →
        (runPipeline env fileUrl index0).outcome =
          .error ("Unsupported file format: " ++
            String.mk (toLowerJS (extnameJS metadata.name.toList))))) := by
  have hcore : ∀ (dx xx px tx : Except JsError String) (e : List Char),
      toLowerJS e ∉ supportedExtensions →
      extractTextContent dx xx px tx e =
        .error ("Unsupported file format: " ++ String.mk e) := by
    intro dx xx px tx e hns
    have c1 : ¬ (toLowerJS e = String.toList ".docx") := by
      intro h
      exact hns (by rw [h]; simp [supportedExtensions])
    have c2 : ¬ (toLowerJS e = String.toList ".xlsx") := by
      intro h
      exact hns (by rw [h]; simp [supportedExtensions])
    have c3 : ¬ (toLowerJS e = String.toList ".pdf") := by
      intro h
      exact hns (by rw [h]; simp [supportedExtensions])
    have c4 : ¬ (toLowerJS e = String.toList ".txt") := by
      intro h
      exact hns (by rw [h]; simp [supportedExtensions])
    simp only [extractTextContent]
    rw [if_neg c1, if_neg c2, if_neg c3, if_neg c4]
  refine ⟨hcore docx xlsx pdf txt ext, ?_⟩
  intro hfetch hns
  have hext := hcore env.extractDocx env.extractXlsx env.extractPdf env.extractTxt
    (toLowerJS (extnameJS metadata.name.toList)) hns
  simp only [runPipeline]
  rcases hgi : env.graphInit with e | u
  · simp [hgi]
  · rcases hup : env.urlParts with e | ⟨hostname, pathname⟩
    · simp [hgi, hup]
    · rcases hparse : parseSharePointUrl env.decode hostname pathname with e | parts
      · simp [hgi, hup, hparse]
      · rcases hsite : env.siteId with e | site
        · simp [hgi, hup, hparse, hsite]
        · rcases hdrive : env.driveId with e | drive
          · simp [hgi, hup, hparse, hsite, hdrive]
          · simp only [hgi, hup, hparse, hsite, hdrive, hfetch, hext]
            simp

/-- `demoEnv` fetching a `.zip` file instead of the text file. -/
def demoEnvZip : PipelineEnv :=
  { demoEnv with fileFetch := .ok { demoFileInfo with name := "archive.zip" } }

/-- Witness for C8: `.zip` is outside the supported set; extraction fails
naming `.zip`, and a pipeline run on `archive.zip` makes no chunker or
embedder call and fails with that error. -/
theorem extractTextContent_unsupported_witness :
    extractTextContent (.ok "a") (.ok "b") (.ok "c") (.ok "d")
      (String.toList ".zip") = .error "Unsupported file format: .zip" ∧
    Event.chunkEv ∉ (runPipeline demoEnvZip demoUrl []).events ∧
    (∀ i, Event.embedEv i ∉ (runPipeline demoEnvZip demoUrl []).events) ∧
    (runPipeline demoEnvZip demoUrl []).outcome =
      .error "Unsupported file format: .zip" := by
  have h := extractTextContent_unsupported (.ok "a") (.ok "b") (.ok "c") (.ok "d")
    (String.toList ".zip") demoEnvZip demoUrl []
    { demoFileInfo with name := "archive.zip" }
  have h2 := h.2 rfl (by decide)
  exact ⟨h.1 (by decide), h2.1, h2.2.1, h2.2.2 (by decide)⟩

end SPIndexer
